import Mathlib

/-!
Verification of the CleanerVersion versioning core (`versions/models.py`)
against its natural-language specification.

The embedding is shallow: each Python function that the claims touch is
translated into an executable Lean definition over a record type
`Versionable` mirroring the persisted columns of the abstract base model
(`id` — the surrogate key, `identity`, `version_start_date`,
`version_end_date`, `version_birth_date`) plus a `payload` field standing
for the domain attributes.  UUIDs and datetimes are modelled as `Nat`
(freshness of generated UUIDs becomes an explicit hypothesis or parameter);
`null` columns become `Option Nat`; a raised Python exception becomes
`Except.error` carrying the exception message.  A database table becomes a
`List` of rows, and a Django `QuerySet` filter becomes a `List.filter`.
-/

set_option autoImplicit false

namespace Versions

/-- One row of a versioned table, mirroring the fields of the abstract model
`Versionable` (models.py lines 813-845).  `id` is the surrogate key (`None`
for a never-saved instance, mirroring a falsy `self.pk`), `identity` the
stable logical key, the three date columns are as in the source
(`version_end_date` nullable), and `payload` stands for the concrete
subclass's domain columns. -/
structure Versionable (α : Type) where
  id : Option Nat
  identity : Nat
  version_start_date : Nat
  version_end_date : Option Nat
  version_birth_date : Nat
  payload : α
deriving DecidableEq, Repr

/-- A row of an auto-created intermediary many-to-many model (models.py lines
449-485): a `Versionable` whose payload is the pair of foreign-key columns
(source id, target id). -/
abbrev Link := Versionable (Nat × Nat)

/-- `VersionedQuerySet.add_as_of_filter` (models.py lines 309-325) as a
row predicate: for a non-null query time `t` the filter is
`(version_end_date > t OR version_end_date IS NULL) AND
version_start_date <= t`; for a null query time it is
`version_end_date IS NULL`. -/
def add_as_of_filter {α : Type} (querytime : Option Nat) (v : Versionable α) : Bool :=
  match querytime with
  | some t =>
      ((match v.version_end_date with
        | some e => decide (e > t)
        | none => true) : Bool)
      && decide (v.version_start_date ≤ t)
  | none => v.version_end_date.isNone

/-- `VersionManager.as_of` / `VersionedQuerySet.as_of` (models.py lines
53-59 and 300-307) applied to a table: keep the rows passing
`add_as_of_filter`. -/
def as_of {α : Type} (store : List (Versionable α)) (querytime : Option Nat) :
    List (Versionable α) :=
  store.filter (add_as_of_filter querytime)

/-- `VersionedForeignKey.get_extra_restriction` (models.py lines 390-408) as
a row predicate on the joined table: no restriction unless
`apply_as_of_time`; then `start <= t AND (end > t OR end IS NULL)` for a
non-null `as_of_time` and `end IS NULL` otherwise. -/
def get_extra_restriction {α : Type} (apply_as_of_time : Bool) (as_of_time : Option Nat)
    (v : Versionable α) : Bool :=
  if apply_as_of_time then
    match as_of_time with
    | some t =>
        decide (v.version_start_date ≤ t)
        && ((match v.version_end_date with
             | some e => decide (e > t)
             | none => true) : Bool)
    | none => v.version_end_date.isNone
  else
    true

/-- Django's `Manager.get` on a filtered queryset: exactly one row must
match; zero rows raise `ObjectDoesNotExist`, several raise
`MultipleObjectsReturned`. -/
def managerGet {α : Type} (qs : List (Versionable α)) (p : Versionable α → Bool) :
    Except String (Versionable α) :=
  match qs.filter p with
  | [] => .error "ObjectDoesNotExist"
  | [v] => .ok v
  | _ :: _ :: _ => .error "MultipleObjectsReturned"

/-- `VersionManager.next_version` (models.py lines 61-80): the current
version is returned unchanged; otherwise get the unique row with the same
identity whose `version_start_date` equals this row's `version_end_date`. -/
def next_version {α : Type} (store : List (Versionable α)) (object : Versionable α) :
    Except String (Versionable α) :=
  match object.version_end_date with
  | none => .ok object
  | some e =>
      managerGet store
        (fun v => v.identity == object.identity && v.version_start_date == e)

/-- `VersionManager.previous_version` (models.py lines 82-104): a first
version (`version_birth_date == version_start_date`) is returned unchanged;
otherwise get the unique row with the same identity whose
`version_end_date` equals this row's `version_start_date`. -/
def previous_version {α : Type} (store : List (Versionable α)) (object : Versionable α) :
    Except String (Versionable α) :=
  if object.version_birth_date = object.version_start_date then
    .ok object
  else
    managerGet store
      (fun v => v.identity == object.identity
        && v.version_end_date == some object.version_start_date)

/-- `VersionManager._create_at` (models.py lines 129-145): one fresh value
`fresh` (the generated UUID) is assigned to both `id` and `identity`;
`version_start_date` and `version_birth_date` are both set to the given
timestamp, defaulting to `get_utc_now()` (the parameter `now`);
`version_end_date` keeps its column default `None`. -/
def _create_at {α : Type} (timestamp : Option Nat) (now fresh : Nat) (payload : α) :
    Versionable α :=
  { id := some fresh
    identity := fresh
    version_start_date := timestamp.getD now
    version_end_date := none
    version_birth_date := timestamp.getD now
    payload := payload }

/-- `VersionManager.create` (models.py lines 121-127): `_create_at` with no
explicit timestamp. -/
def create {α : Type} (now fresh : Nat) (payload : α) : Versionable α :=
  _create_at none now fresh payload

/-- `Versionable._delete_at` (models.py lines 850-865): close a current row
by setting `version_end_date` to the timestamp; raise on a historical
row.  The error case performs no mutation, so it carries no row. -/
def _delete_at {α : Type} (self : Versionable α) (timestamp : Nat) :
    Except String (Versionable α) :=
  match self.version_end_date with
  | none => .ok { self with version_end_date := some timestamp }
  | some _ => .error "Cannot delete anything else but the current version"

/-- `Versionable.delete` (models.py lines 847-848): `_delete_at` at
`get_utc_now()` (the parameter `now`). -/
def delete {α : Type} (self : Versionable α) (now : Nat) : Except String (Versionable α) :=
  _delete_at self now

/-- The mutation core of `Versionable.clone` (models.py lines 902-915):
`later` is a copy of the original taken before any mutation, with
`version_end_date = None` and `version_start_date = d`; then the original
(`earlier`) gets a freshly generated surrogate key and
`version_end_date = d`.  Returns `(earlier, later)`. -/
def cloneAt {α : Type} (self : Versionable α) (d fresh : Nat) :
    Versionable α × Versionable α :=
  ({ self with id := some fresh, version_end_date := some d },
   { self with version_end_date := none, version_start_date := d })

/-- `Versionable.clone` (models.py lines 881-927), restricted to the version
bookkeeping (the many-to-many re-linking of lines 917-925 is modelled by the
relationship-manager functions below).  Guards in source order: an unsaved
instance is rejected, a historical item is rejected, and an explicit
`forced_version_date` is rejected unless
`version_start_date <= forced_version_date <= get_utc_now()` (parameter
`now`); with no explicit date the clone happens at `now`. -/
def clone {α : Type} (self : Versionable α) (forced_version_date : Option Nat)
    (now fresh : Nat) : Except String (Versionable α × Versionable α) :=
  if self.id = none then
    .error "Instance must be saved before it can be cloned"
  else if self.version_end_date ≠ none then
    .error "This is a historical item and can not be cloned."
  else
    match forced_version_date with
    | some d =>
        if self.version_start_date ≤ d ∧ d ≤ now then
          .ok (cloneAt self d fresh)
        else
          .error "The clone date must be between the version start date and now."
    | none => .ok (cloneAt self now fresh)

/-- Claim C1: for a persisted, current entity, `clone(v, at)` hands the old
surrogate key to the later version, gives the earlier version a fresh
surrogate key and `version_end_date = at`, sets the later version's
`version_start_date = at` with `version_end_date` absent, and both versions
keep the identity of `v`. -/
theorem C1_clone_reassigns_keys {α : Type} (v : Versionable α) (k t now fresh : Nat)
    (hk : v.id = some k) (hc : v.version_end_date = none)
    (h1 : v.version_start_date ≤ t) (h2 : t ≤ now) (hf : fresh ≠ k) :
    ∃ earlier later,
      clone v (some t) now fresh = .ok (earlier, later)
      ∧ earlier.id = some fresh
      ∧ earlier.id ≠ v.id
      ∧ earlier.version_end_date = some t
      ∧ later.id = some k
      ∧ later.version_start_date = t
      ∧ later.version_end_date = none
      ∧ earlier.identity = v.identity
      ∧ later.identity = v.identity := by
  refine ⟨{ v with id := some fresh, version_end_date := some t },
          { v with version_end_date := none, version_start_date := t }, ?_, ?_⟩
  · simp [clone, cloneAt, hk, hc, h1, h2]
  · simp [hk, hc, hf]

/-- Witness for C1 at a concrete current row. -/
theorem C1_clone_reassigns_keys_witness :
    ∃ earlier later,
      clone (⟨some 3, 3, 1, none, 1, 0⟩ : Versionable Nat) (some 4) 6 9
        = .ok (earlier, later)
      ∧ earlier.id = some 9
      ∧ earlier.id ≠ (⟨some 3, 3, 1, none, 1, 0⟩ : Versionable Nat).id
      ∧ earlier.version_end_date = some 4
      ∧ later.id = some 3
      ∧ later.version_start_date = 4
      ∧ later.version_end_date = none
      ∧ earlier.identity = (⟨some 3, 3, 1, none, 1, 0⟩ : Versionable Nat).identity
      ∧ later.identity = (⟨some 3, 3, 1, none, 1, 0⟩ : Versionable Nat).identity :=
  C1_clone_reassigns_keys _ 3 4 6 9 rfl rfl (by decide) (by decide) (by decide)

@[simp]
theorem isOk_ok {ε β : Type} (x : β) : (Except.ok x : Except ε β).isOk = true := rfl

@[simp]
theorem isOk_error {ε β : Type} (e : ε) : (Except.error e : Except ε β).isOk = false := rfl

/-- Counterexample to claim C8 as stated: the claim requires the explicit
clone date to lie in the half-open interval `[version_start_date, now())`,
so `at = now()` must be rejected; in the source the guard (models.py line
897) is `version_start_date <= forced_version_date <= get_utc_now()`, a
closed interval, and the call with `at = now = 5` on a row with
`version_start_date = 0` succeeds. -/
theorem C8_counterexample :
    (clone (⟨some 1, 1, 0, none, 0, 0⟩ : Versionable Nat) (some 5) 5 9).isOk = true := by
  decide

/-- Claim C8 (amended): `clone(entity, at)` with an explicit `at` succeeds
exactly when the entity has a persisted surrogate key, is current, and
`at` lies in the closed interval `[version_start_date, now()]`; in
particular `at = now()` is accepted. -/
theorem C8_clone_guard_characterization {α : Type} (v : Versionable α) (t now fresh : Nat) :
    (clone v (some t) now fresh).isOk = true
      ↔ (v.id ≠ none ∧ v.version_end_date = none
          ∧ v.version_start_date ≤ t ∧ t ≤ now) := by
  unfold clone
  rcases hid : v.id with _ | k
  · simp [hid]
  · rcases hend : v.version_end_date with _ | e
    · by_cases hr : v.version_start_date ≤ t ∧ t ≤ now
      · simp [hid, hend, hr]
      · simp [hid, hend, hr]
    · simp [hid, hend]

/-- Claim C9: `delete` closes a current row at `now` leaving every other
field unchanged, and on a historical row raises and changes nothing (the
error carries no mutated row; the source raises before any assignment). -/
theorem C9_delete_behavior {α : Type} (v : Versionable α) (now : Nat) :
    (v.version_end_date = none →
      delete v now = .ok { v with version_end_date := some now })
    ∧ (∀ e, v.version_end_date = some e →
      delete v now = .error "Cannot delete anything else but the current version") := by
  constructor
  · intro h
    simp [delete, _delete_at, h]
  · intro e h
    simp [delete, _delete_at, h]

/-- Witness for C9: one current and one historical concrete row. -/
theorem C9_delete_behavior_witness :
    delete (⟨some 1, 1, 0, none, 0, 0⟩ : Versionable Nat) 10
        = .ok (⟨some 1, 1, 0, some 10, 0, 0⟩ : Versionable Nat)
    ∧ delete (⟨some 2, 2, 0, some 3, 0, 0⟩ : Versionable Nat) 10
        = .error "Cannot delete anything else but the current version" :=
  ⟨(C9_delete_behavior _ 10).1 rfl, (C9_delete_behavior _ 10).2 3 rfl⟩

/-- Claim C10: a successful `create` returns a row whose surrogate key and
identity hold the very same freshly generated value, with
`version_start_date = version_birth_date = ` the creation timestamp and
`version_end_date` absent. -/
theorem C10_create_fresh_fields (now fresh : Nat) (payload : Nat) :
    (create now fresh payload).id = some ((create now fresh payload).identity)
    ∧ (create now fresh payload).identity = fresh
    ∧ (create now fresh payload).version_start_date = now
    ∧ (create now fresh payload).version_birth_date = now
    ∧ (create now fresh payload).version_end_date = none := by
  simp [create, _create_at]

/-- Claim C2: the `as_of(T)` filter returns a stored version with
`version_start_date = S` and `version_end_date = E` exactly when
`S <= T < E`; hence it is returned at `T = S` and at `T = E - ε` but not at
`T = E`; a version with `version_end_date` absent is returned for every
`T >= S` and by `as_of(null)`; and the JOIN ON restriction produced by
`VersionedForeignKey.get_extra_restriction` agrees with the root filter. -/
theorem C2_as_of_boundaries {α : Type} [DecidableEq α] (store : List (Versionable α))
    (v : Versionable α) (hv : v ∈ store) :
    (∀ T E, v.version_end_date = some E →
      (v ∈ as_of store (some T) ↔ (v.version_start_date ≤ T ∧ T < E)))
    ∧ (∀ E, v.version_end_date = some E → v.version_start_date < E →
      v ∈ as_of store (some v.version_start_date))
    ∧ (∀ E ε, v.version_end_date = some E → 0 < ε → v.version_start_date < E →
      v.version_start_date ≤ E - ε → v ∈ as_of store (some (E - ε)))
    ∧ (∀ E, v.version_end_date = some E → v ∉ as_of store (some E))
    ∧ (v.version_end_date = none → ∀ T, v.version_start_date ≤ T →
      v ∈ as_of store (some T))
    ∧ (v.version_end_date = none → v ∈ as_of store none)
    ∧ (∀ t (u : Versionable α), get_extra_restriction true t u = add_as_of_filter t u) := by
  have hchar : ∀ T E, v.version_end_date = some E →
      (v ∈ as_of store (some T) ↔ (v.version_start_date ≤ T ∧ T < E)) := by
    intro T E hE
    simp only [as_of, List.mem_filter, add_as_of_filter, hE]
    constructor
    · rintro ⟨-, h⟩
      simp only [Bool.and_eq_true, decide_eq_true_eq] at h
      exact ⟨h.2, h.1⟩
    · rintro ⟨h1, h2⟩
      exact ⟨hv, by simp [h1, h2]⟩
  refine ⟨hchar, ?_, ?_, ?_, ?_, ?_, ?_⟩
  · intro E hE hlt
    exact (hchar _ _ hE).mpr ⟨le_refl _, hlt⟩
  · intro E ε hE hε hlt hle
    exact (hchar _ _ hE).mpr ⟨hle, by omega⟩
  · intro E hE hmem
    exact absurd ((hchar _ _ hE).mp hmem).2 (lt_irrefl E)
  · intro hE T hT
    simp only [as_of, List.mem_filter, add_as_of_filter, hE]
    exact ⟨hv, by simp [hT]⟩
  · intro hE
    simp only [as_of, List.mem_filter, add_as_of_filter, hE]
    exact ⟨hv, rfl⟩
  · intro t u
    cases t <;> simp [get_extra_restriction, add_as_of_filter, Bool.and_comm]

/-- Witness for C2 at a concrete two-row store: the closed row
`[S, E) = [2, 5)` is in `as_of 2` and `as_of 4` but not `as_of 5`, and the
current row is in `as_of 7` and in `as_of null`. -/
theorem C2_as_of_boundaries_witness :
    ((⟨some 1, 1, 2, some 5, 2, 0⟩ : Versionable Nat)
        ∈ as_of [⟨some 1, 1, 2, some 5, 2, 0⟩, ⟨some 2, 1, 5, none, 2, 0⟩] (some 2))
    ∧ ((⟨some 1, 1, 2, some 5, 2, 0⟩ : Versionable Nat)
        ∈ as_of [⟨some 1, 1, 2, some 5, 2, 0⟩, ⟨some 2, 1, 5, none, 2, 0⟩] (some 4))
    ∧ ((⟨some 1, 1, 2, some 5, 2, 0⟩ : Versionable Nat)
        ∉ as_of [⟨some 1, 1, 2, some 5, 2, 0⟩, ⟨some 2, 1, 5, none, 2, 0⟩] (some 5))
    ∧ ((⟨some 2, 1, 5, none, 2, 0⟩ : Versionable Nat)
        ∈ as_of [⟨some 1, 1, 2, some 5, 2, 0⟩, ⟨some 2, 1, 5, none, 2, 0⟩] (some 7))
    ∧ ((⟨some 2, 1, 5, none, 2, 0⟩ : Versionable Nat)
        ∈ as_of [⟨some 1, 1, 2, some 5, 2, 0⟩, ⟨some 2, 1, 5, none, 2, 0⟩] none) := by
  refine ⟨?_, ?_, ?_, ?_, ?_⟩
  · exact (C2_as_of_boundaries _ _ (by decide)).2.1 5 rfl (by decide)
  · exact (C2_as_of_boundaries _ _ (by decide)).2.2.1 5 1 rfl (by decide) (by decide)
      (by decide)
  · exact (C2_as_of_boundaries _ _ (by decide)).2.2.2.1 5 rfl
  · exact (C2_as_of_boundaries _ _ (by decide)).2.2.2.2.1 rfl 7 (by decide)
  · exact (C2_as_of_boundaries _ _ (by decide)).2.2.2.2.2.1 rfl

/-- Well-formedness of the version chain of identity `i` with birth `b`
inside `store`, following the spec's chain invariants: rows are pairwise
distinct; every row of the identity carries birth `b`, starts no earlier
than `b`, and, when closed, has a non-empty interval and a successor row
starting at its end date; version start dates are unique within the
identity, and so are non-null version end dates. -/
@[reducible]
def ChainWF {α : Type} [DecidableEq α] (store : List (Versionable α)) (i b : Nat) : Prop :=
  store.Nodup
  ∧ (∀ v ∈ store, v.identity = i →
      v.version_birth_date = b
      ∧ b ≤ v.version_start_date
      ∧ (v.version_end_date.isSome = true →
          v.version_start_date < v.version_end_date.getD 0
          ∧ ∃ w ∈ store, w.identity = i ∧ some w.version_start_date = v.version_end_date))
  ∧ (∀ u ∈ store, ∀ w ∈ store, u.identity = i → w.identity = i →
      (u.version_start_date = w.version_start_date → u = w)
      ∧ (u.version_end_date = w.version_end_date → u.version_end_date.isSome = true → u = w))

/-- A filter over a duplicate-free list whose matches are all equal to a
member `w` that itself matches evaluates to exactly `[w]`. -/
theorem filter_eq_singleton_of_uniq {β : Type} {l : List β} {p : β → Bool} {w : β}
    (hnd : l.Nodup) (hw : w ∈ l) (hpw : p w = true)
    (huniq : ∀ u ∈ l, p u = true → u = w) :
    l.filter p = [w] := by
  induction l with
  | nil => cases hw
  | cons a as ih =>
    obtain ⟨hna, hnas⟩ := List.nodup_cons.mp hnd
    rcases List.mem_cons.mp hw with rfl | hw'
    · rw [List.filter_cons_of_pos hpw]
      have hnil : as.filter p = [] := by
        refine List.filter_eq_nil_iff.mpr (fun u hu hpu => ?_)
        exact hna ((huniq u (List.mem_cons_of_mem _ hu) hpu) ▸ hu)
      rw [hnil]
    · have hpa : ¬ p a = true := by
        intro h
        exact hna ((huniq a (List.mem_cons_self _ _) h).symm ▸ hw')
      rw [List.filter_cons_of_neg hpa]
      exact ih hnas hw' (fun u hu hpu => huniq u (List.mem_cons_of_mem _ hu) hpu)

/-- Claim C3: inside a well-formed chain, `previous_version` after
`next_version` is the identity on any non-terminal version;
`next_version` returns a current version unchanged; and
`previous_version` returns a first version (one whose
`version_start_date` equals its birth date) unchanged. -/
theorem C3_next_previous_roundtrip {α : Type} [DecidableEq α]
    (store : List (Versionable α)) (i b : Nat) (v : Versionable α)
    (hwf : ChainWF store i b) (hv : v ∈ store) (hi : v.identity = i) :
    (∀ e, v.version_end_date = some e →
      Except.bind (next_version store v) (previous_version store) = .ok v)
    ∧ (v.version_end_date = none → next_version store v = .ok v)
    ∧ (v.version_birth_date = v.version_start_date → previous_version store v = .ok v) := by
  obtain ⟨hnd, hrow, huniq⟩ := hwf
  refine ⟨?_, ?_, ?_⟩
  · intro e he
    obtain ⟨hvb, hvs, hsucc⟩ := hrow v hv hi
    obtain ⟨hlt, w, hw, hwi, hws⟩ := hsucc (by rw [he]; rfl)
    rw [he] at hws hlt
    have hws' : w.version_start_date = e := Option.some.inj hws
    simp only [Option.getD_some] at hlt
    have hfilt : store.filter
        (fun u => u.identity == v.identity && u.version_start_date == e) = [w] := by
      refine filter_eq_singleton_of_uniq hnd hw (by simp [hwi, hi, hws']) ?_
      intro u hu hp
      simp only [Bool.and_eq_true, beq_iff_eq] at hp
      exact (huniq u hu w hw (hp.1.trans hi) hwi).1 (hp.2.trans hws'.symm)
    have hnext : next_version store v = .ok w := by
      unfold next_version
      rw [he]
      show managerGet store
        (fun u => u.identity == v.identity && u.version_start_date == e) = Except.ok w
      unfold managerGet
      rw [hfilt]
    have hwb : w.version_birth_date = b := (hrow w hw hwi).1
    have hne : ¬ w.version_birth_date = w.version_start_date := by
      rw [hwb, hws']
      omega
    have hfilt2 : store.filter
        (fun u => u.identity == w.identity
          && u.version_end_date == some w.version_start_date) = [v] := by
      refine filter_eq_singleton_of_uniq hnd hv (by simp [hi, hwi, he, hws']) ?_
      intro u hu hp
      simp only [Bool.and_eq_true, beq_iff_eq] at hp
      refine (huniq u hu v hv (hp.1.trans hwi) hi).2 ?_ (by simp [hp.2])
      rw [hp.2, hws', he]
    have hprev : previous_version store w = .ok v := by
      unfold previous_version
      rw [if_neg hne]
      unfold managerGet
      rw [hfilt2]
    rw [hnext]
    exact hprev
  · intro h
    unfold next_version
    rw [h]
  · intro h
    unfold previous_version
    rw [if_pos h]

/-- Witness for C3 on a concrete two-version chain of identity 10 born at
0: the closed version `[0, 5)` round-trips through `next_version` then
`previous_version`, and the current version is a fixed point of
`next_version`. -/
theorem C3_next_previous_roundtrip_witness :
    Except.bind
        (next_version [⟨some 1, 10, 0, some 5, 0, 0⟩, ⟨some 2, 10, 5, none, 0, 0⟩]
          (⟨some 1, 10, 0, some 5, 0, 0⟩ : Versionable Nat))
        (previous_version [⟨some 1, 10, 0, some 5, 0, 0⟩, ⟨some 2, 10, 5, none, 0, 0⟩])
      = .ok (⟨some 1, 10, 0, some 5, 0, 0⟩ : Versionable Nat)
    ∧ next_version [⟨some 1, 10, 0, some 5, 0, 0⟩, ⟨some 2, 10, 5, none, 0, 0⟩]
        (⟨some 2, 10, 5, none, 0, 0⟩ : Versionable Nat)
      = .ok (⟨some 2, 10, 5, none, 0, 0⟩ : Versionable Nat)
    ∧ previous_version [⟨some 1, 10, 0, some 5, 0, 0⟩, ⟨some 2, 10, 5, none, 0, 0⟩]
        (⟨some 1, 10, 0, some 5, 0, 0⟩ : Versionable Nat)
      = .ok (⟨some 1, 10, 0, some 5, 0, 0⟩ : Versionable Nat) :=
  ⟨(C3_next_previous_roundtrip _ 10 0 _ (by decide) (by decide) (by decide)).1 5 rfl,
   (C3_next_previous_roundtrip _ 10 0 _ (by decide) (by decide) (by decide)).2.1 rfl,
   (C3_next_previous_roundtrip _ 10 0 _ (by decide) (by decide) (by decide)).2.2 rfl⟩

@[simp]
theorem except_bind_ok {ε β γ : Type} (x : β) (f : β → Except ε γ) :
    (Except.ok x : Except ε β) >>= f = f x := rfl

@[simp]
theorem except_bind_error {ε β γ : Type} (e : ε) (f : β → Except ε γ) :
    (Except.error e : Except ε β) >>= f = (Except.error e : Except ε γ) := rfl

/-- `VersionedReverseSingleRelatedObjectDescriptor.__get__` (models.py lines
498-514): a null stored reference yields `None` (`if not current_elt:
return None`); otherwise `super().__get__` runs the plain `get` by the
stored surrogate key — raising `ObjectDoesNotExist` when no row carries
that key and `MultipleObjectsReturned` on duplicates, both propagated —
and then the historic element is fetched with
`objects.as_of(instance.as_of).get(identity=current_elt.identity)`, i.e. by
`(identity, observed time)` instead of by the stored surrogate key. -/
def rsd_get {α : Type} (store : List (Versionable α)) (instance_as_of : Option Nat)
    (stored_fk : Option Nat) : Except String (Option (Versionable α)) :=
  match stored_fk with
  | none => .ok none
  | some k => do
      let w ← managerGet store (fun v => v.id == some k)
      (managerGet (as_of store instance_as_of) (fun v => v.identity == w.identity)).map
        some

/-- Claim C7: dereferencing a single-valued reference on an entity observed
at `T` resolves to the unique version of the referenced identity valid at
`T` — not necessarily the version whose surrogate key is stored — and an
absent reference field yields an absent result, not an error. -/
theorem C7_fk_resolves_by_identity {α : Type} [DecidableEq α]
    (store : List (Versionable α)) (T k : Nat) (w u : Versionable α)
    (hw : store.filter (fun v => v.id == some k) = [w])
    (hu : (as_of store (some T)).filter (fun v => v.identity == w.identity) = [u]) :
    rsd_get store (some T) (some k) = .ok (some u)
    ∧ u.identity = w.identity
    ∧ add_as_of_filter (some T) u = true
    ∧ rsd_get store (some T) none = .ok none := by
  have humem : u ∈ (as_of store (some T)).filter (fun v => v.identity == w.identity) := by
    rw [hu]
    exact List.mem_singleton.mpr rfl
  have hu2 := List.mem_filter.mp humem
  have hu3 := List.mem_filter.mp hu2.1
  refine ⟨?_, by simpa using hu2.2, hu3.2, rfl⟩
  have hget : managerGet store (fun v => v.id == some k) = .ok w := by
    unfold managerGet
    rw [hw]
  unfold rsd_get
  show (managerGet store (fun v => v.id == some k) >>= fun w =>
      Except.map some
        (managerGet (as_of store (some T)) (fun v => v.identity == w.identity)))
    = Except.ok (some u)
  rw [hget, except_bind_ok]
  unfold managerGet
  rw [hu]
  rfl

/-- Witness for C7 on a concrete store: the stored surrogate key points to
the historic row with id 1, but dereferencing at `T = 7` resolves to the
row with id 2, the version of the same identity valid at 7. -/
theorem C7_fk_resolves_by_identity_witness :
    rsd_get [⟨some 1, 9, 0, some 5, 0, (0 : Nat)⟩, ⟨some 2, 9, 5, none, 0, 0⟩]
        (some 7) (some 1)
      = .ok (some ⟨some 2, 9, 5, none, 0, 0⟩)
    ∧ (⟨some 2, 9, 5, none, 0, 0⟩ : Versionable Nat).identity
        = (⟨some 1, 9, 0, some 5, 0, (0 : Nat)⟩ : Versionable Nat).identity
    ∧ add_as_of_filter (some 7) (⟨some 2, 9, 5, none, 0, 0⟩ : Versionable Nat) = true
    ∧ rsd_get [⟨some 1, 9, 0, some 5, 0, (0 : Nat)⟩, ⟨some 2, 9, 5, none, 0, 0⟩]
        (some 7) none = .ok none :=
  C7_fk_resolves_by_identity _ 7 1 _ _ (by decide) (by decide)

/-- An intermediary row as constructed through `add_at` (models.py lines
648-668): the temporarily swapped constructor sets `version_birth_date`
and `version_start_date` to the back-dated timestamp, while the `post_init`
signal handler (models.py lines 975-994) has already assigned one fresh
value to both `id` and `identity`; the payload is the (source id, target
id) pair of foreign-key columns. -/
def mkLink (fresh_id timestamp src tgt : Nat) : Link :=
  { id := some fresh_id
    identity := fresh_id
    version_start_date := timestamp
    version_end_date := none
    version_birth_date := timestamp
    payload := (src, tgt) }

/-- Close a row at `t` when it matches `p`, else leave it alone: the
row-level effect of the `_remove_items_at` loop, used to state results. -/
def closeIf (p : Link → Bool) (t : Nat) (l : Link) : Link :=
  if p l then { l with version_end_date := some t } else l

/-- The queryset filter of `_remove_items_at` (models.py lines 633-637):
`{source_field_name: self.instance.id, target_field_name__in: old_ids}`
followed by `.as_of(timestamp)`.  With `swapped = true` the two field names
arrive exchanged (the symmetrical branch of `remove_at`, lines 680-682), so
the instance id is compared against the target column and `old_ids` against
the source column. -/
def removeMatchPred (swapped : Bool) (instance_id : Option Nat) (old_ids : List Nat)
    (t : Nat) (l : Link) : Bool :=
  (if swapped then instance_id == some l.payload.2 && old_ids.contains l.payload.1
   else instance_id == some l.payload.1 && old_ids.contains l.payload.2)
  && add_as_of_filter (some t) l

/-- The `for relation in qs: relation._delete_at(timestamp)` loop of
`_remove_items_at` (models.py lines 638-639) over the whole table: each row
matching the queryset filter is closed through `_delete_at`, which raises on
an already-closed row; non-matching rows are untouched. -/
def removeMatches (p : Link → Bool) (t : Nat) : List Link → Except String (List Link)
  | [] => .ok []
  | l :: ls =>
      if p l then do
        let l2 ← _delete_at l t
        let ls2 ← removeMatches p t ls
        pure (l2 :: ls2)
      else do
        let ls2 ← removeMatches p t ls
        pure (l :: ls2)

/-- `VersionedManyRelatedManager._remove_items_at` (models.py lines
614-639): nothing happens without objects; otherwise a `None` timestamp
defaults to `get_utc_now()` (parameter `now`) and every link row matching
the filter is closed via `_delete_at`. -/
def _remove_items_at (swapped : Bool) (timestamp : Option Nat) (now : Nat)
    (links : List Link) (instance_id : Option Nat) (old_ids : List Nat) :
    Except String (List Link) :=
  if old_ids.isEmpty then
    .ok links
  else
    removeMatches (removeMatchPred swapped instance_id old_ids (timestamp.getD now))
      (timestamp.getD now) links

/-- `VersionedManyRelatedManager.remove_at` (models.py lines 672-684):
`_remove_items_at` with the given timestamp, repeated with the field names
exchanged when the relation is symmetrical. -/
def remove_at (symmetrical : Bool) (timestamp now : Nat) (links : List Link)
    (instance_id : Option Nat) (old_ids : List Nat) : Except String (List Link) := do
  let links1 ← _remove_items_at false (some timestamp) now links instance_id old_ids
  if symmetrical then
    _remove_items_at true (some timestamp) now links1 instance_id old_ids
  else
    pure links1

/-- `VersionedManyRelatedManager._remove_items` (models.py lines 605-612)
as reached from the base manager's `remove`: `_remove_items_at` with a
`None` timestamp (hence `now`), mirrored for symmetrical relations. -/
def remove (symmetrical : Bool) (now : Nat) (links : List Link)
    (instance_id : Option Nat) (old_ids : List Nat) : Except String (List Link) := do
  let links1 ← _remove_items_at false none now links instance_id old_ids
  if symmetrical then
    _remove_items_at true none now links1 instance_id old_ids
  else
    pure links1

/-- The currently-linked target ids of a source instance:
`self.through.objects.current.filter(source_field == instance.pk)` followed
by `values_list(target_field, flat=True)` collected into a Python set
(`get_current_m2m_diff`, models.py lines 750-762). -/
def currentTargetIds (instance_id : Option Nat) (links : List Link) : List Nat :=
  ((links.filter
      (fun l => l.version_end_date == none && instance_id == some l.payload.1)).map
    (fun l => l.payload.2)).dedup

/-- `VersionedReverseManyRelatedObjectsDescriptor.get_current_m2m_diff`
(models.py lines 743-766): `being_removed = current_ids - new_ids`,
`being_added = new_ids - current_ids`, as Python set differences. -/
def get_current_m2m_diff (instance_id : Option Nat) (links : List Link)
    (new_objects : List Nat) : List Nat × List Nat :=
  let new_ids := new_objects.dedup
  let current_ids := currentTargetIds instance_id links
  (current_ids.filter (fun x => !(new_ids.contains x)),
   new_ids.filter (fun x => !(current_ids.contains x)))

/-- The rows bulk-created by the base manager's `_add_items` for the ids
that survive its duplicate check, each built by the back-dated constructor
of `add_at`; `fresh` enumerates the generated UUIDs. -/
def addLinks (fresh : Nat → Nat) (k timestamp src : Nat) : List Nat → List Link
  | [] => []
  | tgt :: tgts => mkLink (fresh k) timestamp src tgt :: addLinks fresh (k + 1) timestamp src tgts

/-- The base manager's `_add_items` as executed against the versioned
through model: the duplicate check runs through the overridden
`values_list` (models.py lines 327-332), which restricts to current rows,
so only target ids without an existing current link are created. -/
def _add_items (timestamp : Nat) (links : List Link) (instance_id : Option Nat)
    (tgt_ids : List Nat) (fresh : Nat → Nat) : List Link :=
  let new_ids := tgt_ids.dedup
  let to_create := new_ids.filter (fun x => !(currentTargetIds instance_id links).contains x)
  links ++ addLinks fresh 0 timestamp (instance_id.getD 0) to_create

/-- `add` / `add_at` of `VersionedManyRelatedManager` (models.py lines
641-670): adding is refused on a non-current instance, otherwise the
back-dated rows are bulk-created by `_add_items`. -/
def m2m_add_at (timestamp : Nat) (self : Versionable Nat) (links : List Link)
    (tgt_ids : List Nat) (fresh : Nat → Nat) : Except String (List Link) :=
  if self.version_end_date.isSome then
    .error "Adding many-to-many related objects is only possible on the current version"
  else
    .ok (_add_items timestamp links self.id tgt_ids fresh)

/-- `VersionedReverseManyRelatedObjectsDescriptor.__set__` (models.py lines
705-741) for a non-self-referential (non-symmetrical) relation: refuse on a
non-current instance, compute the diff, take one timestamp
(`get_utc_now()`, parameter `now`) and close the removed links and create
the added links at that shared timestamp. -/
def m2m_set (self : Versionable Nat) (links : List Link) (value : List Nat)
    (now : Nat) (fresh : Nat → Nat) : Except String (List Link) :=
  if self.version_end_date.isSome then
    .error "Related values can only be directly set on the current version of an object"
  else
    let rd := get_current_m2m_diff self.id links value
    do
      let links1 ← _remove_items_at false (some now) now links self.id rd.1
      m2m_add_at now self links1 rd.2 fresh

/-- When every matching row is current the `_delete_at` loop succeeds and
acts as a pointwise close of the matching rows. -/
theorem removeMatches_eq_map (p : Link → Bool) (t : Nat) (ls : List Link)
    (h : ∀ l ∈ ls, p l = true → l.version_end_date = none) :
    removeMatches p t ls = .ok (ls.map (closeIf p t)) := by
  induction ls with
  | nil => rfl
  | cons a as ih =>
    have has : ∀ l ∈ as, p l = true → l.version_end_date = none :=
      fun l hl => h l (List.mem_cons_of_mem _ hl)
    by_cases hpa : p a = true
    · have hae : a.version_end_date = none := h a (List.mem_cons_self _ _) hpa
      simp [removeMatches, hpa, _delete_at, hae, ih has, closeIf]
    · simp [removeMatches, hpa, ih has, closeIf]

/-- `_remove_items_at` under the same condition: the result is the
pointwise close of the matching rows (also when `old_ids` is empty and the
method is a no-op, since then nothing matches). -/
theorem _remove_items_at_eq_map (swapped : Bool) (t now : Nat) (links : List Link)
    (iid : Option Nat) (olds : List Nat)
    (h : ∀ l ∈ links, removeMatchPred swapped iid olds t l = true →
      l.version_end_date = none) :
    _remove_items_at swapped (some t) now links iid olds
      = .ok (links.map (closeIf (removeMatchPred swapped iid olds t) t)) := by
  unfold _remove_items_at
  by_cases ho : olds.isEmpty
  · rw [if_pos ho]
    have holds : olds = [] := List.isEmpty_iff.mp ho
    subst holds
    have hcl : ∀ l ∈ links, closeIf (removeMatchPred swapped iid [] t) t l = l := by
      intro l hl
      unfold closeIf removeMatchPred
      cases swapped <;> simp
    rw [List.map_congr_left hcl, List.map_id']
  · rw [if_neg ho]
    simp only [Option.getD_some]
    exact removeMatches_eq_map _ _ _ h

/-- Closing rows can only shrink the set of current target ids. -/
theorem currentTargetIds_closeIf_subset (iid : Option Nat) (links : List Link)
    (p : Link → Bool) (t : Nat) :
    ∀ x ∈ currentTargetIds iid (links.map (closeIf p t)), x ∈ currentTargetIds iid links := by
  intro x hx
  unfold currentTargetIds at hx ⊢
  rw [List.mem_dedup] at hx ⊢
  obtain ⟨l2, hl2, hx2⟩ := List.mem_map.mp hx
  obtain ⟨hl2m, hq⟩ := List.mem_filter.mp hl2
  obtain ⟨l, hl, hfl⟩ := List.mem_map.mp hl2m
  have hpl : p l = false := by
    by_contra hp
    have hp' : p l = true := by
      revert hp
      cases p l <;> simp
    rw [← hfl] at hq
    unfold closeIf at hq
    rw [if_pos hp'] at hq
    simp at hq
  have hll2 : l2 = l := by
    rw [← hfl]
    unfold closeIf
    rw [if_neg (by simp [hpl])]
  rw [hll2] at hq hx2
  exact List.mem_map.mpr ⟨l, List.mem_filter.mpr ⟨hl, hq⟩, hx2⟩

/-- Counterexample to claim C6 as stated: the claim demands that *each*
link row valid at the given instant get its `version_end_date` set to the
timestamp.  The link row `(1, 2)` with interval `[0, 5)` IS valid at
instant 3 and matches the removal filter, yet
`_remove_items_at(timestamp = 3)` raises (via `Versionable._delete_at`,
which refuses anything but the current version) instead of setting its
`version_end_date` to 3. -/
theorem C6_counterexample :
    removeMatchPred false (some 1) [2] 3
        (⟨some 7, 7, 0, some 5, 0, (1, 2)⟩ : Link) = true
    ∧ _remove_items_at false (some 3) 99 [⟨some 7, 7, 0, some 5, 0, (1, 2)⟩]
        (some 1) [2]
      = .error "Cannot delete anything else but the current version" :=
  ⟨by decide, rfl⟩

/-- Claim C6 (amended): `remove` and `remove_at` never delete link rows;
each *current* link row matching the source and targets and valid at the
instant has its `version_end_date` set to `now()` (respectively the given
timestamp) and every other row is left unchanged (if a matched valid link
is already closed, the operation raises instead); for symmetrical
relations the mirror-direction links are closed identically at the same
timestamp; and `remove` behaves as `remove_at` at `now()`. -/
theorem C6_remove_closes_links (links : List Link) (iid : Option Nat) (olds : List Nat)
    (t now : Nat)
    (h1 : ∀ l ∈ links, removeMatchPred false iid olds t l = true →
      l.version_end_date = none)
    (h2 : ∀ l ∈ links.map (closeIf (removeMatchPred false iid olds t) t),
      removeMatchPred true iid olds t l = true → l.version_end_date = none) :
    remove_at false t now links iid olds
      = .ok (links.map (closeIf (removeMatchPred false iid olds t) t))
    ∧ remove_at true t now links iid olds
      = .ok ((links.map (closeIf (removeMatchPred false iid olds t) t)).map
          (closeIf (removeMatchPred true iid olds t) t))
    ∧ (links.map (closeIf (removeMatchPred false iid olds t) t)).length = links.length
    ∧ remove false now links iid olds = remove_at false now now links iid olds
    ∧ remove true now links iid olds = remove_at true now now links iid olds := by
  have hfwd := _remove_items_at_eq_map false t now links iid olds h1
  have hmir := _remove_items_at_eq_map true t now
    (links.map (closeIf (removeMatchPred false iid olds t) t)) iid olds h2
  refine ⟨?_, ?_, List.length_map _ _, rfl, rfl⟩
  · unfold remove_at
    rw [hfwd]
    rfl
  · unfold remove_at
    rw [hfwd]
    rw [except_bind_ok]
    rw [if_pos rfl]
    exact hmir

/-- Witness for C6 on a symmetrical relation: both directions of the link
between instances 1 and 2 are current, and `remove_at(5)` closes both at
the shared timestamp 5, deleting nothing. -/
theorem C6_remove_closes_links_witness :
    remove_at true 5 5 [⟨some 21, 21, 0, none, 0, (1, 2)⟩, ⟨some 22, 22, 0, none, 0, (2, 1)⟩]
        (some 1) [2]
      = .ok [⟨some 21, 21, 0, some 5, 0, (1, 2)⟩, ⟨some 22, 22, 0, some 5, 0, (2, 1)⟩] := by
  have h := (C6_remove_closes_links
    [⟨some 21, 21, 0, none, 0, (1, 2)⟩, ⟨some 22, 22, 0, none, 0, (2, 1)⟩]
    (some 1) [2] 5 5 (by decide) (by decide)).2.1
  rw [h]
  rfl

/-- A row valid at `now` whose end date (if any) does not exceed `now` must
be current. -/
theorem valid_at_now_is_current (l : Link) (now : Nat)
    (hv : add_as_of_filter (some now) l = true)
    (hb : l.version_end_date.getD 0 ≤ now) :
    l.version_end_date = none := by
  rcases hle : l.version_end_date with _ | e
  · rfl
  · exfalso
    unfold add_as_of_filter at hv
    rw [hle] at hv hb
    simp at hv hb
    omega

/-- Claim C4: bulk set-replace computes `being_removed = current − desired`
and `being_added = desired − current`, closes exactly the removed links and
creates exactly the added links at the one shared timestamp `now`, leaves
links in the intersection untouched, and raises on a non-current source
without changing anything (the error carries no modified table; the source
raises before computing the diff).  The hypothesis `hend` rules out link
rows closed in the future, which cannot arise from the mutation interface
itself. -/
theorem C4_set_replace_is_diff_based (self : Versionable Nat) (links : List Link)
    (value : List Nat) (now : Nat) (fresh : Nat → Nat) (pk : Nat)
    (hid : self.id = some pk)
    (hend : ∀ l ∈ links, l.version_end_date.getD 0 ≤ now) :
    (∀ x, x ∈ (get_current_m2m_diff self.id links value).1 ↔
      (x ∈ currentTargetIds self.id links ∧ x ∉ value))
    ∧ (∀ x, x ∈ (get_current_m2m_diff self.id links value).2 ↔
      (x ∈ value ∧ x ∉ currentTargetIds self.id links))
    ∧ (self.version_end_date = none →
      m2m_set self links value now fresh
        = .ok (links.map (closeIf
              (removeMatchPred false self.id (get_current_m2m_diff self.id links value).1
                now) now)
            ++ addLinks fresh 0 now pk (get_current_m2m_diff self.id links value).2))
    ∧ (∀ l ∈ links, l.payload.2 ∈ value →
      closeIf (removeMatchPred false self.id (get_current_m2m_diff self.id links value).1
        now) now l = l)
    ∧ (∀ e, self.version_end_date = some e →
      m2m_set self links value now fresh
        = .error "Related values can only be directly set on the current version of an object") := by
  have hrmem : ∀ x, x ∈ (get_current_m2m_diff self.id links value).1 ↔
      (x ∈ currentTargetIds self.id links ∧ x ∉ value) := by
    intro x
    unfold get_current_m2m_diff
    simp [List.mem_filter, List.elem_eq_mem, List.mem_dedup]
  have hamem : ∀ x, x ∈ (get_current_m2m_diff self.id links value).2 ↔
      (x ∈ value ∧ x ∉ currentTargetIds self.id links) := by
    intro x
    unfold get_current_m2m_diff
    simp [List.mem_filter, List.elem_eq_mem, List.mem_dedup]
  have huntouched : ∀ l ∈ links, l.payload.2 ∈ value →
      closeIf (removeMatchPred false self.id (get_current_m2m_diff self.id links value).1
        now) now l = l := by
    intro l hl hmem
    have hnr : l.payload.2 ∉ (get_current_m2m_diff self.id links value).1 :=
      fun hr => ((hrmem _).mp hr).2 hmem
    unfold closeIf
    rw [if_neg]
    simp [removeMatchPred, List.elem_eq_mem, hnr]
  refine ⟨hrmem, hamem, ?_, huntouched, ?_⟩
  · intro hcur
    have h1 : ∀ l ∈ links,
        removeMatchPred false self.id (get_current_m2m_diff self.id links value).1 now l
          = true → l.version_end_date = none := by
      intro l hl hm
      unfold removeMatchPred at hm
      rw [Bool.and_eq_true] at hm
      exact valid_at_now_is_current l now hm.2 (hend l hl)
    have hrm := _remove_items_at_eq_map false now now links self.id
      (get_current_m2m_diff self.id links value).1 h1
    have hnda : (get_current_m2m_diff self.id links value).2.Nodup :=
      List.Nodup.filter _ (List.nodup_dedup value)
    have hded : (get_current_m2m_diff self.id links value).2.dedup
        = (get_current_m2m_diff self.id links value).2 :=
      List.dedup_eq_self.mpr hnda
    have hfil : (get_current_m2m_diff self.id links value).2.filter
        (fun x => !((currentTargetIds self.id
          (links.map (closeIf
            (removeMatchPred false self.id (get_current_m2m_diff self.id links value).1
              now) now))).contains x))
        = (get_current_m2m_diff self.id links value).2 := by
      refine List.filter_eq_self.mpr (fun x hx => ?_)
      have hxa := (hamem x).mp hx
      have hnotin : x ∉ currentTargetIds self.id
          (links.map (closeIf
            (removeMatchPred false self.id (get_current_m2m_diff self.id links value).1
              now) now)) :=
        fun hmem => hxa.2 (currentTargetIds_closeIf_subset _ _ _ _ x hmem)
      simp [List.elem_eq_mem, hnotin]
    unfold m2m_set
    rw [hcur]
    simp only [Option.isSome_none, Bool.false_eq_true, if_false]
    rw [hrm, except_bind_ok]
    unfold m2m_add_at
    rw [hcur]
    simp only [Option.isSome_none, Bool.false_eq_true, if_false]
    unfold _add_items
    rw [hded]
    simp only [hfil]
    rw [hid]
    simp only [Option.getD_some]
  · intro e he
    simp [m2m_set, he]

/-- Witness for C4: source 1 currently links to 2 and 3; replacing with
`{3, 4}` closes only the `(1, 2)` link, leaves `(1, 3)` untouched and
creates only `(1, 4)`, all at the shared timestamp 10. -/
theorem C4_set_replace_is_diff_based_witness :
    m2m_set ⟨some 1, 1, 0, none, 0, 0⟩
        [⟨some 11, 11, 0, none, 0, (1, 2)⟩, ⟨some 12, 12, 0, none, 0, (1, 3)⟩]
        [3, 4] 10 (fun n => 100 + n)
      = .ok [⟨some 11, 11, 0, some 10, 0, (1, 2)⟩, ⟨some 12, 12, 0, none, 0, (1, 3)⟩,
          ⟨some 100, 100, 10, none, 10, (1, 4)⟩] := by
  have h := (C4_set_replace_is_diff_based ⟨some 1, 1, 0, none, 0, 0⟩
    [⟨some 11, 11, 0, none, 0, (1, 2)⟩, ⟨some 12, 12, 0, none, 0, (1, 3)⟩]
    [3, 4] 10 (fun n => 100 + n) 1 rfl (by decide)).2.2.1 rfl
  rw [h]
  rfl

/-- Claim C5: replacing a many-to-many collection of a current source with
exactly the currently-linked target set is the identity on the link table:
no link is closed and no link row is created. -/
theorem C5_set_replace_idempotent (self : Versionable Nat) (links : List Link)
    (value : List Nat) (now : Nat) (fresh : Nat → Nat)
    (hcur : self.version_end_date = none)
    (hval : ∀ x, x ∈ value ↔ x ∈ currentTargetIds self.id links) :
    m2m_set self links value now fresh = .ok links := by
  have hr : (get_current_m2m_diff self.id links value).1 = [] := by
    unfold get_current_m2m_diff
    refine List.filter_eq_nil_iff.mpr (fun x hx hc => ?_)
    have hxv : x ∈ value := (hval x).mpr hx
    simp [List.elem_eq_mem, List.mem_dedup, hxv] at hc
  have ha : (get_current_m2m_diff self.id links value).2 = [] := by
    unfold get_current_m2m_diff
    refine List.filter_eq_nil_iff.mpr (fun x hx hc => ?_)
    have hxv : x ∈ currentTargetIds self.id links := (hval x).mp (List.mem_dedup.mp hx)
    simp [List.elem_eq_mem, hxv] at hc
  unfold m2m_set
  rw [hcur]
  simp only [Option.isSome_none, Bool.false_eq_true, if_false]
  rw [hr, ha]
  have hrm : _remove_items_at false (some now) now links self.id ([] : List Nat)
      = .ok links := rfl
  rw [hrm, except_bind_ok]
  unfold m2m_add_at
  rw [hcur]
  simp only [Option.isSome_none, Bool.false_eq_true, if_false]
  simp [_add_items, addLinks]

/-- Witness for C5: replacing the links of source 1 (currently linked to 2
and 3) with exactly `{2, 3}` leaves the link table unchanged. -/
theorem C5_set_replace_idempotent_witness :
    m2m_set ⟨some 1, 1, 0, none, 0, 0⟩
        [⟨some 11, 11, 0, none, 0, (1, 2)⟩, ⟨some 12, 12, 0, none, 0, (1, 3)⟩,
         ⟨some 13, 13, 0, some 4, 0, (1, 7)⟩]
        [2, 3] 10 (fun n => 100 + n)
      = .ok [⟨some 11, 11, 0, none, 0, (1, 2)⟩, ⟨some 12, 12, 0, none, 0, (1, 3)⟩,
          ⟨some 13, 13, 0, some 4, 0, (1, 7)⟩] :=
  C5_set_replace_idempotent _ _ _ 10 (fun n => 100 + n) rfl (fun _ => Iff.rfl)

end Versions
